import Mathlib

/-!
Shallow embedding of the entity/component runtime of `Component.hpp` and
`ObjectManager.hpp`.

Modelling conventions:
* a component instance (`ComponentBase`-derived object) lives on a heap,
  identified by its index in a `List Comp`; besides the dynamic type
  (the `typeid(...).name()` string) and the owner back-reference set by
  `SetOwner`, each instance records how many times each virtual lifecycle
  hook has been invoked on it — those counters are the observable effect
  of the hooks;
* `std::unordered_map<std::string, V>` is modelled as an association list
  with unique keys; `operator[]=` is `assocSet` (overwrite or append),
  `find` is `assocFind`, `erase` is `assocErase`;
* `weak_ptr` results are `Option` values (`none` = empty reference);
* `dynamic_pointer_cast<T>` success is a parameter `castOk stored requested`
  of the typed-lookup model, standing for "stored concrete type is
  `requested` or a subtype of it";
* list iterators stored in `ObjectManager::m_umNameToObjPtr` are modelled
  by a per-object identity (`GameObject.id`, the `shared_ptr` identity),
  handed out by a creation counter;
* object destruction (`~GameObject`) happens when the registry drops an
  object, per the ownership model: it invokes `OnRelease` once per stored
  component-map entry.
-/

namespace ComponentTest

/-- One `ComponentBase`-derived instance: dynamic type, owner back-reference
(`m_wpOwner`, as an object id), and invocation counters for the five
lifecycle hooks. -/
structure Comp where
  ctype : String
  owner : Option Nat := none
  nStart : Nat := 0
  nPre : Nat := 0
  nUpd : Nat := 0
  nPost : Nat := 0
  nRelease : Nat := 0
deriving DecidableEq, Repr

/-- Effect of one `OnStart` invocation on an instance. -/
def incStart (c : Comp) : Comp := { c with nStart := c.nStart + 1 }

/-- Effect of one `OnPreUpdate` invocation on an instance. -/
def incPre (c : Comp) : Comp := { c with nPre := c.nPre + 1 }

/-- Effect of one `OnUpdate` invocation on an instance. -/
def incUpd (c : Comp) : Comp := { c with nUpd := c.nUpd + 1 }

/-- Effect of one `OnPostUpdate` invocation on an instance. -/
def incPost (c : Comp) : Comp := { c with nPost := c.nPost + 1 }

/-- Effect of one `OnRelease` invocation on an instance. -/
def incRelease (c : Comp) : Comp := { c with nRelease := c.nRelease + 1 }

/-- `ComponentBase::SetOwner`. -/
def setOwner (oid : Nat) (c : Comp) : Comp := { c with owner := some oid }

/-- Apply `f` to the component stored at heap index `i` (no-op out of
range): a call through one stored `shared_ptr`. -/
def modifyAt : List Comp → Nat → (Comp → Comp) → List Comp
  | [], _, _ => []
  | c :: t, 0, f => f c :: t
  | c :: t, i + 1, f => c :: modifyAt t i f

/-- Fan a hook out to every component referenced by the map entries, in
iteration order (the counters commute, so the unspecified `unordered_map`
order does not matter). -/
def dispatch (f : Comp → Comp) (heap : List Comp) (entries : List (String × Nat)) : List Comp :=
  entries.foldl (fun h e => modifyAt h e.2 f) heap

/-- Read the counter selected by `sel` of the component at heap index `i`
(0 out of range). -/
def hookCount (sel : Comp → Nat) : List Comp → Nat → Nat
  | [], _ => 0
  | c :: _, 0 => sel c
  | _ :: t, i + 1 => hookCount sel t i

/-- Total number of `OnStart` invocations recorded on a heap. -/
def startSum (heap : List Comp) : Nat := (heap.map Comp.nStart).sum

/-- `unordered_map::find`. -/
def assocFind {α : Type} : List (String × α) → String → Option α
  | [], _ => none
  | (k1, v) :: t, k => if k1 = k then some v else assocFind t k

/-- `unordered_map::operator[] = v`: overwrite the entry with that key, or
append a new entry. -/
def assocSet {α : Type} : List (String × α) → String → α → List (String × α)
  | [], k, v => [(k, v)]
  | (k1, v1) :: t, k, v => if k1 = k then (k, v) :: t else (k1, v1) :: assocSet t k v

/-- `unordered_map::erase(key)`. -/
def assocErase {α : Type} : List (String × α) → String → List (String × α)
  | [], _ => []
  | (k1, v1) :: t, k => if k1 = k then t else (k1, v1) :: assocErase t k

/-- `GameObject` state: the "has started" latch `m_isCalledUpdate`, the
active flag, the registry-assigned name, and the component table
`m_umNameToComp` mapping component keys to heap indices. `id` is the
model surrogate for the `shared_ptr` identity of the object. -/
structure GameObject where
  id : Nat
  m_isCalledUpdate : Bool := false
  m_isActive : Bool := false
  m_name : String := ""
  m_umNameToComp : List (String × Nat) := []
deriving DecidableEq, Repr

/-- An entity together with the component heap it acts on. -/
structure World where
  heap : List Comp := []
  obj : GameObject
deriving DecidableEq, Repr

namespace World

/-- `GameObject::AddComponent(shared_ptr, string_view)`: `SetOwner`, then
store under the key, overwriting any occupant (no `OnRelease` is invoked
by the source on the prior occupant). -/
def AddComponent (w : World) (cid : Nat) (name : String) : World :=
  { heap := modifyAt w.heap cid (setOwner w.obj.id),
    obj := { w.obj with m_umNameToComp := assocSet w.obj.m_umNameToComp name cid } }

/-- Typed `GameObject::AddComponent<CompType>(...)`: `make_shared` a fresh
instance whose dynamic type is `CompType` (a new heap cell), `SetOwner`,
store it under the canonical key `typeid(CompType).name()` — here the
type is identified with that string. The new heap index is
`w.heap.length`. -/
def AddComponentT (w : World) (ty : String) : World :=
  { heap := w.heap ++ [{ ctype := ty, owner := some w.obj.id }],
    obj := { w.obj with m_umNameToComp := assocSet w.obj.m_umNameToComp ty w.heap.length } }

/-- `GameObject::RemoveComponent(string_view)`: if present, `OnRelease`
then erase; silent no-op when absent. -/
def RemoveComponent (w : World) (name : String) : World :=
  match assocFind w.obj.m_umNameToComp name with
  | none => w
  | some cid =>
      { heap := modifyAt w.heap cid incRelease,
        obj := { w.obj with m_umNameToComp := assocErase w.obj.m_umNameToComp name } }

/-- Typed `GameObject::RemoveComponent<CompType>()`: identical to the named
removal at the canonical key `typeid(CompType).name()`. -/
def RemoveComponentT (w : World) (ty : String) : World := w.RemoveComponent ty

/-- `GameObject::GetComponent(string_view)`: empty `weak_ptr` when the key
is absent. -/
def GetComponent (w : World) (name : String) : Option Nat :=
  assocFind w.obj.m_umNameToComp name

/-- Typed `GameObject::GetComponent<CompType>()`: lookup at the canonical
key, then `dynamic_pointer_cast`; `castOk stored requested` tells whether
the cast from the stored concrete type succeeds. -/
def GetComponentT (castOk : String → String → Bool) (w : World) (ty : String) : Option Nat :=
  match assocFind w.obj.m_umNameToComp ty with
  | none => none
  | some cid =>
      match w.heap.get? cid with
      | none => none
      | some c => if castOk c.ctype ty then some cid else none

/-- `GameObject::SetActive`. -/
def SetActive (w : World) (b : Bool) : World :=
  { w with obj := { w.obj with m_isActive := b } }

/-- `GameObject::PreUpdate`: no-op when inactive; otherwise, when the
latch `m_isCalledUpdate` is still unset, dispatch `OnStart` to every
stored component and set the latch, then dispatch `OnPreUpdate` to every
stored component. -/
def PreUpdate (w : World) : World :=
  if w.obj.m_isActive = false then w
  else
    let w1 : World :=
      if w.obj.m_isCalledUpdate = false then
        { heap := dispatch incStart w.heap w.obj.m_umNameToComp,
          obj := { w.obj with m_isCalledUpdate := true } }
      else w
    { w1 with heap := dispatch incPre w1.heap w1.obj.m_umNameToComp }

/-- `GameObject::Update`: no-op when inactive; otherwise dispatch
`OnUpdate` to every stored component. -/
def Update (w : World) : World :=
  if w.obj.m_isActive = false then w
  else { w with heap := dispatch incUpd w.heap w.obj.m_umNameToComp }

/-- `GameObject::PostUpdate`: no-op when inactive; otherwise dispatch
`OnPostUpdate` to every stored component. -/
def PostUpdate (w : World) : World :=
  if w.obj.m_isActive = false then w
  else { w with heap := dispatch incPost w.heap w.obj.m_umNameToComp }

end World

/-- `~GameObject`: `OnRelease` on every stored component (once per map
entry), then the table is cleared together with the object. -/
def destructObj (heap : List Comp) (o : GameObject) : List Comp :=
  dispatch incRelease heap o.m_umNameToComp

/-- `ObjectManager` state: the component heap, the ordered live list
`m_lObjects`, the name index `m_umNameToObjPtr` (name to object identity,
standing for the stored list iterator), and the identity counter. -/
structure ObjectManager where
  heap : List Comp := []
  m_lObjects : List GameObject := []
  m_umNameToObjPtr : List (String × Nat) := []
  nextId : Nat := 0
deriving DecidableEq, Repr

namespace ObjectManager

/-- Suffix-search loop of `ObjectManager::CreateObjName`: try
`base1`, `base2`, ... until a name is free. Fuel bounds the recursion;
with fuel `m.length + 1` the fallback is unreachable because the tried
candidates are pairwise distinct and the map is smaller. -/
def findSuffix (m : List (String × Nat)) (base : String) : Nat → Nat → String
  | 0, i => base ++ toString i
  | fuel + 1, i =>
      if assocFind m (base ++ toString i) = none then base ++ toString i
      else findSuffix m base fuel (i + 1)

/-- `ObjectManager::CreateObjName`, translated faithfully: `resultName`
starts empty, and on the fresh-name path (first `find` misses) the loop
breaks before ever assigning it, so a fresh base name yields `""`. -/
def CreateObjName (mgr : ObjectManager) (base : String) : String :=
  if assocFind mgr.m_umNameToObjPtr base = none then ""
  else findSuffix mgr.m_umNameToObjPtr base (mgr.m_umNameToObjPtr.length + 1) 1

/-- `ObjectManager::GenerateObject`: create an object, name it with
`CreateObjName`, set it active, append it to the live list and index it
under its final name; the returned `Nat` is the identity of the new
object (the returned `shared_ptr`). -/
def GenerateObject (mgr : ObjectManager) (base : String) : ObjectManager × Nat :=
  let objName := mgr.CreateObjName base
  ({ mgr with
      m_lObjects :=
        mgr.m_lObjects ++ [{ id := mgr.nextId, m_isActive := true, m_name := objName }],
      m_umNameToObjPtr := assocSet mgr.m_umNameToObjPtr objName mgr.nextId,
      nextId := mgr.nextId + 1 }, mgr.nextId)

/-- `ObjectManager::GetObject`: empty `weak_ptr` when the name is not
indexed. -/
def GetObject (mgr : ObjectManager) (name : String) : Option Nat :=
  assocFind mgr.m_umNameToObjPtr name

/-- Scan loop of `ObjectManager::RemoveUnActuveObjects`: an inactive
object is removed from the name index and from the list, which destroys
it (`destructObj`); active objects are kept untouched in order. -/
def removeLoop (heap : List Comp) (nameMap : List (String × Nat)) :
    List GameObject → List Comp × List (String × Nat) × List GameObject
  | [] => (heap, nameMap, [])
  | o :: rest =>
      if o.m_isActive = false then
        removeLoop (destructObj heap o) (assocErase nameMap o.m_name) rest
      else
        let r := removeLoop heap nameMap rest
        (r.1, r.2.1, o :: r.2.2)

/-- `ObjectManager::RemoveUnActuveObjects`. -/
def RemoveUnActuveObjects (mgr : ObjectManager) : ObjectManager :=
  let r := removeLoop mgr.heap mgr.m_umNameToObjPtr mgr.m_lObjects
  { mgr with heap := r.1, m_umNameToObjPtr := r.2.1, m_lObjects := r.2.2 }

/-- `ObjectManager::Update`: exactly the reclamation pass. -/
def Update (mgr : ObjectManager) : ObjectManager := mgr.RemoveUnActuveObjects

/-- `ObjectManager::ReleaseAllObjects`: destroy every live object
(regardless of its active flag) and clear both containers. -/
def ReleaseAllObjects (mgr : ObjectManager) : ObjectManager :=
  { mgr with
      heap := mgr.m_lObjects.foldl destructObj mgr.heap,
      m_lObjects := [],
      m_umNameToObjPtr := [] }

/-- The caller invoking `SetActive b` through a held reference to the
object with identity `oid`. -/
def SetObjectActive (mgr : ObjectManager) (oid : Nat) (b : Bool) : ObjectManager :=
  { mgr with
      m_lObjects :=
        mgr.m_lObjects.map (fun o => if o.id = oid then { o with m_isActive := b } else o) }

end ObjectManager

/-- Public operations a caller can perform on one entity. -/
inductive EntityOp where
  | setActive : Bool → EntityOp
  | addComponent : Nat → String → EntityOp
  | addComponentT : String → EntityOp
  | removeComponent : String → EntityOp
  | removeComponentT : String → EntityOp
  | preUpdate : EntityOp
  | update : EntityOp
  | postUpdate : EntityOp
deriving DecidableEq, Repr

/-- Interpretation of one entity operation. -/
def applyOp (w : World) : EntityOp → World
  | .setActive b => w.SetActive b
  | .addComponent c k => w.AddComponent c k
  | .addComponentT ty => w.AddComponentT ty
  | .removeComponent k => w.RemoveComponent k
  | .removeComponentT ty => w.RemoveComponentT ty
  | .preUpdate => w.PreUpdate
  | .update => w.Update
  | .postUpdate => w.PostUpdate

/-- Interpretation of a sequence of entity operations. -/
def applyOps (w : World) (ops : List EntityOp) : World := ops.foldl applyOp w

/-- The registry invariant of the spec: every name-index entry refers to a
live object of that name, every live object is indexed under its own
name, and no two index entries share a name. -/
def MapListBijection (mgr : ObjectManager) : Prop :=
  (∀ p ∈ mgr.m_umNameToObjPtr, ∃ o ∈ mgr.m_lObjects, o.id = p.2 ∧ o.m_name = p.1) ∧
  (∀ o ∈ mgr.m_lObjects, assocFind mgr.m_umNameToObjPtr o.m_name = some o.id) ∧
  (mgr.m_umNameToObjPtr.map Prod.fst).Nodup

instance (mgr : ObjectManager) : Decidable (MapListBijection mgr) := by
  unfold MapListBijection
  infer_instance

/-- Entity world used by the C2 counterexample: two detached component
instances on the heap. -/
def exWorldAB : World := { heap := [{ ctype := "A" }, { ctype := "B" }], obj := { id := 0 } }

/-- Registry after two `GenerateObject "X"` calls on a fresh registry. -/
def exMgrXX : ObjectManager := ((ObjectManager.GenerateObject {} "X").1.GenerateObject "X").1

/-- Registry after three `GenerateObject "X"` calls on a fresh registry. -/
def exMgrXXX : ObjectManager := (exMgrXX.GenerateObject "X").1

/-- Live object whose single component is stored under two distinct keys. -/
def exObjTwoKeys : GameObject :=
  { id := 0, m_isActive := true, m_name := "n", m_umNameToComp := [("a", 0), ("b", 0)] }

/-- Registry holding `exObjTwoKeys` and its one-component heap. -/
def exMgrTwoKeys : ObjectManager :=
  { heap := [{ ctype := "A" }], m_lObjects := [exObjTwoKeys],
    m_umNameToObjPtr := [("n", 0)], nextId := 1 }

/-- Live object with one component under one key, for the C4 witness. -/
def exObjOneKey : GameObject :=
  { id := 0, m_isActive := true, m_name := "n", m_umNameToComp := [("k", 0)] }

/-- Registry holding `exObjOneKey` and its one-component heap. -/
def exMgrOneKey : ObjectManager :=
  { heap := [{ ctype := "A" }], m_lObjects := [exObjOneKey],
    m_umNameToObjPtr := [("n", 0)], nextId := 1 }

/-- Active entity with a detached instance on the heap (C5 counterexample). -/
def exWorldA : World := { heap := [{ ctype := "A" }], obj := { id := 0, m_isActive := true } }

/-- C5 counterexample run: one update cycle with nothing attached, then
attach the component, then one more full cycle. -/
def exWorldLate : World := (((exWorldA.PreUpdate).AddComponent 0 "k").PreUpdate).Update

/-- Active, not-yet-started entity with one attached component (C5 witness). -/
def exWorldFresh : World :=
  { heap := [{ ctype := "A" }],
    obj := { id := 0, m_isActive := true, m_umNameToComp := [("k", 0)] } }

/-- Inactive-from-creation entity with one attached component (C7 witness). -/
def exWorldInactive : World :=
  { heap := [{ ctype := "A" }], obj := { id := 0, m_umNameToComp := [("k", 0)] } }

/-- Already-started entity with one attached component (C10 witness). -/
def exWorldLatched : World :=
  { heap := [{ ctype := "A" }],
    obj := { id := 0, m_isActive := true, m_isCalledUpdate := true,
             m_umNameToComp := [("k", 0)] } }

/-- Cast model used by concrete witnesses: the cast succeeds exactly on
the same concrete type. -/
def castEq (a b : String) : Bool := a == b

/-- Entity with one detached instance of concrete type `T` (C6 witness). -/
def exWorldT : World := { heap := [{ ctype := "T" }], obj := { id := 0 } }

/-- Entity with one stored component of concrete type `A` under key `t`
(C8 witness: type-mismatched typed lookup). -/
def exWorldMismatch : World :=
  { heap := [{ ctype := "A" }], obj := { id := 0, m_umNameToComp := [("t", 0)] } }

theorem modifyAt_length (h : List Comp) (i : Nat) (f : Comp → Comp) :
    (modifyAt h i f).length = h.length := by
  induction h generalizing i with
  | nil => rfl
  | cons c t ih =>
      cases i with
      | zero => rfl
      | succ j => simp [modifyAt, ih]

theorem modifyAt_map (sel : Comp → Nat) (f : Comp → Comp) (hf : ∀ c, sel (f c) = sel c)
    (h : List Comp) (i : Nat) : (modifyAt h i f).map sel = h.map sel := by
  induction h generalizing i with
  | nil => rfl
  | cons c t ih =>
      cases i with
      | zero => simp [modifyAt, hf]
      | succ j => simp [modifyAt, ih]

theorem modifyAt_get (h : List Comp) (i : Nat) (f : Comp → Comp) :
    (modifyAt h i f).get? i = (h.get? i).map f := by
  induction h generalizing i with
  | nil => cases i <;> rfl
  | cons c t ih =>
      cases i with
      | zero => rfl
      | succ j => simpa [modifyAt] using ih j

theorem dispatch_nil (f : Comp → Comp) (h : List Comp) : dispatch f h [] = h := rfl

theorem dispatch_cons (f : Comp → Comp) (h : List Comp) (e : String × Nat)
    (es : List (String × Nat)) : dispatch f h (e :: es) = dispatch f (modifyAt h e.2 f) es := rfl

theorem dispatch_length (f : Comp → Comp) (h : List Comp) (es : List (String × Nat)) :
    (dispatch f h es).length = h.length := by
  induction es generalizing h with
  | nil => rfl
  | cons e es ih => rw [dispatch_cons, ih, modifyAt_length]

theorem dispatch_map (sel : Comp → Nat) (f : Comp → Comp) (hf : ∀ c, sel (f c) = sel c)
    (h : List Comp) (es : List (String × Nat)) : (dispatch f h es).map sel = h.map sel := by
  induction es generalizing h with
  | nil => rfl
  | cons e es ih => rw [dispatch_cons, ih, modifyAt_map sel f hf]

theorem hookCount_congr (sel : Comp → Nat) {h1 h2 : List Comp}
    (hmap : h1.map sel = h2.map sel) (j : Nat) : hookCount sel h1 j = hookCount sel h2 j := by
  induction h1 generalizing h2 j with
  | nil =>
      cases h2 with
      | nil => rfl
      | cons c2 t2 => simp at hmap
  | cons c t ih =>
      cases h2 with
      | nil => simp at hmap
      | cons c2 t2 =>
          simp only [List.map_cons, List.cons.injEq] at hmap
          cases j with
          | zero => simpa [hookCount] using hmap.1
          | succ j => simpa [hookCount] using ih hmap.2 j

theorem hookCount_modifyAt (sel : Comp → Nat) (f : Comp → Comp)
    (hf : ∀ c, sel (f c) = sel c + 1) (h : List Comp) (i j : Nat) (hj : j < h.length) :
    hookCount sel (modifyAt h i f) j = hookCount sel h j + if i = j then 1 else 0 := by
  induction h generalizing i j with
  | nil => simp at hj
  | cons c t ih =>
      cases i with
      | zero =>
          cases j with
          | zero => simp [modifyAt, hookCount, hf]
          | succ j => simp [modifyAt, hookCount]
      | succ i =>
          cases j with
          | zero => simp [modifyAt, hookCount]
          | succ j =>
              have hj2 : j < t.length := by simpa using hj
              simp [modifyAt, hookCount, ih i j hj2]

theorem hookCount_dispatch (sel : Comp → Nat) (f : Comp → Comp)
    (hf : ∀ c, sel (f c) = sel c + 1) (h : List Comp) (es : List (String × Nat)) (j : Nat)
    (hj : j < h.length) :
    hookCount sel (dispatch f h es) j = hookCount sel h j + (es.map Prod.snd).count j := by
  induction es generalizing h with
  | nil => simp [dispatch]
  | cons e es ih =>
      rw [dispatch_cons,
        ih (modifyAt h e.2 f) (by rw [modifyAt_length]; exact hj),
        hookCount_modifyAt sel f hf h e.2 j hj]
      by_cases hej : e.2 = j
      · simp [hej, List.count_cons]
        try omega
      · simp [hej, List.count_cons]
        try omega

theorem assocFind_set_self {α : Type} (m : List (String × α)) (k : String) (v : α) :
    assocFind (assocSet m k v) k = some v := by
  induction m with
  | nil => simp [assocSet, assocFind]
  | cons p t ih =>
      obtain ⟨k1, v1⟩ := p
      by_cases hk : k1 = k
      · simp [assocSet, hk, assocFind]
      · simp [assocSet, hk, assocFind, ih]

theorem assocFind_eq_none_of_not_mem {α : Type} (m : List (String × α)) (k : String)
    (h : k ∉ m.map Prod.fst) : assocFind m k = none := by
  induction m with
  | nil => rfl
  | cons p t ih =>
      obtain ⟨k1, v1⟩ := p
      simp only [List.map_cons, List.mem_cons] at h
      push_neg at h
      have hne : k1 ≠ k := fun he => h.1 he.symm
      simp [assocFind, hne, ih h.2]

theorem assocErase_sublist {α : Type} (m : List (String × α)) (k : String) :
    List.Sublist (assocErase m k) m := by
  induction m with
  | nil => simp [assocErase]
  | cons p t ih =>
      obtain ⟨k1, v1⟩ := p
      by_cases hk : k1 = k
      · simp [assocErase, hk]
      · simpa [assocErase, hk] using ih.cons₂ (k1, v1)

theorem assocErase_keys_nodup {α : Type} (m : List (String × α)) (k : String)
    (h : (m.map Prod.fst).Nodup) : ((assocErase m k).map Prod.fst).Nodup :=
  ((assocErase_sublist m k).map Prod.fst).nodup h

theorem assocFind_erase_self {α : Type} (m : List (String × α)) (k : String)
    (h : (m.map Prod.fst).Nodup) : assocFind (assocErase m k) k = none := by
  induction m with
  | nil => rfl
  | cons p t ih =>
      obtain ⟨k1, v1⟩ := p
      simp only [List.map_cons, List.nodup_cons] at h
      by_cases hk : k1 = k
      · subst hk
        simpa [assocErase] using assocFind_eq_none_of_not_mem t k1 h.1
      · simp [assocErase, hk, assocFind, ih h.2]

theorem assocFind_erase_none {α : Type} (m : List (String × α)) (k k2 : String)
    (h : assocFind m k2 = none) : assocFind (assocErase m k) k2 = none := by
  induction m with
  | nil => rfl
  | cons p t ih =>
      obtain ⟨k1, v1⟩ := p
      by_cases h2 : k1 = k2
      · simp [assocFind, h2] at h
      · simp only [assocFind, h2, if_neg] at h
        by_cases hk : k1 = k
        · simpa [assocErase, hk] using h
        · simp [assocErase, hk, assocFind, h2, ih h]

theorem assocFind_foldl_erase_none {α : Type} (names : List String) (m : List (String × α))
    (k : String) (h : assocFind m k = none) :
    assocFind (names.foldl assocErase m) k = none := by
  induction names generalizing m with
  | nil => exact h
  | cons n rest ih => exact ih (assocErase m n) (assocFind_erase_none m n k h)

theorem assocFind_foldl_erase_mem {α : Type} (names : List String) (m : List (String × α))
    (k : String) (hnd : (m.map Prod.fst).Nodup) (hmem : k ∈ names) :
    assocFind (names.foldl assocErase m) k = none := by
  induction names generalizing m with
  | nil => simp at hmem
  | cons n rest ih =>
      simp only [List.foldl_cons]
      by_cases hk : n = k
      · subst hk
        exact assocFind_foldl_erase_none rest _ n (assocFind_erase_self m n hnd)
      · have hmem2 : k ∈ rest := by
          rcases List.mem_cons.mp hmem with h1 | h1
          · exact absurd h1.symm hk
          · exact h1
        exact ih (assocErase m n) (assocErase_keys_nodup m n hnd) hmem2

theorem assocSet_keys_mem {α : Type} (m : List (String × α)) (k : String) (v : α)
    (a : String) : a ∈ (assocSet m k v).map Prod.fst ↔ a = k ∨ a ∈ m.map Prod.fst := by
  induction m with
  | nil => simp [assocSet]
  | cons p t ih =>
      obtain ⟨k1, v1⟩ := p
      by_cases hk : k1 = k
      · subst hk
        simp [assocSet]
      · simp [assocSet, hk, ih]
        tauto

theorem assocSet_keys_nodup {α : Type} (m : List (String × α)) (k : String) (v : α)
    (h : (m.map Prod.fst).Nodup) : ((assocSet m k v).map Prod.fst).Nodup := by
  induction m with
  | nil => simp [assocSet]
  | cons p t ih =>
      obtain ⟨k1, v1⟩ := p
      simp only [List.map_cons, List.nodup_cons] at h
      by_cases hk : k1 = k
      · have heq : assocSet ((k1, v1) :: t) k v = (k, v) :: t := by simp [assocSet, hk]
        rw [heq, List.map_cons, List.nodup_cons]
        exact ⟨hk ▸ h.1, h.2⟩
      · have heq : assocSet ((k1, v1) :: t) k v = (k1, v1) :: assocSet t k v := by
          simp [assocSet, hk]
        rw [heq, List.map_cons, List.nodup_cons]
        refine ⟨?_, ih h.2⟩
        intro hmem
        rcases (assocSet_keys_mem t k v k1).mp hmem with h1 | h1
        · exact hk h1
        · exact h.1 h1

theorem flatten_sublist {α : Type} {l1 l2 : List (List α)} (h : List.Sublist l1 l2) :
    List.Sublist l1.flatten l2.flatten := by
  induction h with
  | slnil => simp
  | cons a h ih =>
      rw [List.flatten_cons]
      exact ih.trans (List.sublist_append_right a _)
  | cons₂ a h ih =>
      rw [List.flatten_cons, List.flatten_cons]
      exact ih.append_left a

theorem destructObj_length (h : List Comp) (o : GameObject) :
    (destructObj h o).length = h.length := dispatch_length incRelease h o.m_umNameToComp

theorem hookCount_destructObj (h : List Comp) (o : GameObject) (j : Nat) (hj : j < h.length) :
    hookCount Comp.nRelease (destructObj h o) j =
      hookCount Comp.nRelease h j + (o.m_umNameToComp.map Prod.snd).count j :=
  hookCount_dispatch Comp.nRelease incRelease (fun _ => rfl) h o.m_umNameToComp j hj

theorem foldl_destruct_length (l : List GameObject) (h : List Comp) :
    (l.foldl destructObj h).length = h.length := by
  induction l generalizing h with
  | nil => rfl
  | cons o rest ih => rw [List.foldl_cons, ih, destructObj_length]

theorem hookCount_foldl_destruct (l : List GameObject) (h : List Comp) (j : Nat)
    (hj : j < h.length) :
    hookCount Comp.nRelease (l.foldl destructObj h) j =
      hookCount Comp.nRelease h j +
        ((l.map fun o => o.m_umNameToComp.map Prod.snd).flatten).count j := by
  induction l generalizing h with
  | nil => simp
  | cons o rest ih =>
      rw [List.foldl_cons, ih (destructObj h o) (by rw [destructObj_length]; exact hj),
        hookCount_destructObj h o j hj, List.map_cons, List.flatten_cons, List.count_append]
      omega

theorem removeLoop_objects (h : List Comp) (m : List (String × Nat)) (l : List GameObject) :
    (ObjectManager.removeLoop h m l).2.2 = l.filter (fun o => o.m_isActive) := by
  induction l generalizing h m with
  | nil => rfl
  | cons o rest ih =>
      by_cases ho : o.m_isActive = false
      · simp [ObjectManager.removeLoop, ho, ih, List.filter_cons]
      · have ho2 : o.m_isActive = true := by
          cases hb : o.m_isActive
          · exact absurd hb ho
          · rfl
        simp [ObjectManager.removeLoop, ho2, ih, List.filter_cons]

theorem removeLoop_heap (h : List Comp) (m : List (String × Nat)) (l : List GameObject) :
    (ObjectManager.removeLoop h m l).1 =
      (l.filter (fun o => !o.m_isActive)).foldl destructObj h := by
  induction l generalizing h m with
  | nil => rfl
  | cons o rest ih =>
      by_cases ho : o.m_isActive = false
      · simp [ObjectManager.removeLoop, ho, ih, List.filter_cons]
      · have ho2 : o.m_isActive = true := by
          cases hb : o.m_isActive
          · exact absurd hb ho
          · rfl
        simp [ObjectManager.removeLoop, ho2, ih, List.filter_cons]

theorem removeLoop_nameMap (h : List Comp) (m : List (String × Nat)) (l : List GameObject) :
    (ObjectManager.removeLoop h m l).2.1 =
      (((l.filter (fun o => !o.m_isActive)).map GameObject.m_name).foldl assocErase m) := by
  induction l generalizing h m with
  | nil => rfl
  | cons o rest ih =>
      by_cases ho : o.m_isActive = false
      · simp [ObjectManager.removeLoop, ho, ih, List.filter_cons]
      · have ho2 : o.m_isActive = true := by
          cases hb : o.m_isActive
          · exact absurd hb ho
          · rfl
        simp [ObjectManager.removeLoop, ho2, ih, List.filter_cons]

theorem removeLoop_all_active (h : List Comp) (m : List (String × Nat)) (l : List GameObject)
    (ha : ∀ o ∈ l, o.m_isActive = true) : ObjectManager.removeLoop h m l = (h, m, l) := by
  induction l generalizing h m with
  | nil => rfl
  | cons o rest ih =>
      have ho := ha o (List.mem_cons_self o rest)
      have ihr := ih h m (fun x hx => ha x (List.mem_cons_of_mem o hx))
      simp [ObjectManager.removeLoop, ho, ihr]

/-- C1: the spec says `GenerateObject(baseName)` uses `baseName` verbatim
when the name is free; the code does not — `CreateObjName` returns the
empty string on the fresh-name path (its `resultName` is never assigned
there), so three `GenerateObject "X"` calls on a fresh registry name the
entities `""`, `""`, `""` instead of `"X"`, `"X1"`, `"X2"`. -/
theorem c1_fresh_base_name_yields_empty_string :
    ObjectManager.CreateObjName {} "X" = "" ∧
    exMgrXXX.m_lObjects.map GameObject.m_name = ["", "", ""] ∧
    ("" : String) ≠ "X" := by decide

/-- C3: the map/list bijection invariant fails on a reachable registry
state: after two `GenerateObject "X"` calls both entities are named `""`,
the name index holds a single entry, and the first entity is not indexed
under its name. -/
theorem c3_bijection_fails_after_two_generates :
    ¬ MapListBijection exMgrXX ∧
    exMgrXX.m_lObjects.length = 2 ∧ exMgrXX.m_umNameToObjPtr.length = 1 := by decide

/-- C2 counterexample: storing a second component at the occupied key `k`
leaves the prior occupant's `OnRelease` count at zero — no detachment hook
fires — on the named path and on the typed path alike, refuting the claim
that `OnRelease` is invoked exactly once on the prior occupant. -/
theorem c2_counterexample_no_release_on_overwrite :
    ((exWorldAB.AddComponent 0 "k").AddComponent 1 "k").heap.map Comp.nRelease = [0, 0] ∧
    World.GetComponent ((exWorldAB.AddComponent 0 "k").AddComponent 1 "k") "k" = some 1 ∧
    ((exWorldAB.AddComponent 0 "k").AddComponentT "k").heap.map Comp.nRelease = [0, 0, 0] ∧
    World.GetComponent ((exWorldAB.AddComponent 0 "k").AddComponentT "k") "k" = some 2 := by
  decide

/-- C2 amended: attaching at an occupied key overwrites the occupant
without invoking `OnRelease` on it — every existing component's release
counter is unchanged by either `AddComponent` path (the typed path only
appends a fresh counter at zero) — and the new component becomes the one
stored at the key. -/
theorem c2_overwrite_never_releases (w : World) (cid : Nat) (k ty : String) :
    (w.AddComponent cid k).heap.map Comp.nRelease = w.heap.map Comp.nRelease ∧
    World.GetComponent (w.AddComponent cid k) k = some cid ∧
    (w.AddComponentT ty).heap.map Comp.nRelease = w.heap.map Comp.nRelease ++ [0] ∧
    World.GetComponent (w.AddComponentT ty) ty = some w.heap.length := by
  refine ⟨?_, ?_, ?_, ?_⟩
  · exact modifyAt_map Comp.nRelease (setOwner w.obj.id) (fun _ => rfl) w.heap cid
  · simp [World.GetComponent, World.AddComponent, assocFind_set_self]
  · simp [World.AddComponentT]
  · simp [World.GetComponent, World.AddComponentT, assocFind_set_self]

/-- C7: for an inactive entity each phase call is a complete no-op: the
whole world — every component's hook counters and the full entity state —
is unchanged, so no hook is dispatched however often the phases run. -/
theorem c7_inactive_phases_noop (w : World) (h : w.obj.m_isActive = false) :
    w.PreUpdate = w ∧ w.Update = w ∧ w.PostUpdate = w := by
  refine ⟨?_, ?_, ?_⟩ <;> simp [World.PreUpdate, World.Update, World.PostUpdate, h]

/-- C7 witness: a concrete entity inactive since creation. -/
theorem c7_witness :
    exWorldInactive.obj.m_isActive = false ∧
    (exWorldInactive.PreUpdate = exWorldInactive ∧
      exWorldInactive.Update = exWorldInactive ∧
      exWorldInactive.PostUpdate = exWorldInactive) :=
  ⟨rfl, c7_inactive_phases_noop exWorldInactive rfl⟩

/-- C8: absent lookups yield empty references: a missing component key, a
missing canonical type key, a cast-failing stored component, and a missing
object name all produce `none` — an empty `weak_ptr`, never an error
signal (the lookups are pure and leave entity and registry untouched). -/
theorem c8_absent_lookups_empty :
    (∀ (w : World) (k : String),
        assocFind w.obj.m_umNameToComp k = none → w.GetComponent k = none) ∧
    (∀ (castOk : String → String → Bool) (w : World) (ty : String),
        assocFind w.obj.m_umNameToComp ty = none → World.GetComponentT castOk w ty = none) ∧
    (∀ (castOk : String → String → Bool) (w : World) (ty : String) (c : Nat) (comp : Comp),
        assocFind w.obj.m_umNameToComp ty = some c → w.heap.get? c = some comp →
        castOk comp.ctype ty = false → World.GetComponentT castOk w ty = none) ∧
    (∀ (mgr : ObjectManager) (name : String),
        assocFind mgr.m_umNameToObjPtr name = none → mgr.GetObject name = none) := by
  refine ⟨?_, ?_, ?_, ?_⟩
  · intro w k h
    simp [World.GetComponent, h]
  · intro castOk w ty h
    simp [World.GetComponentT, h]
  · intro castOk w ty c comp h1 h2 h3
    rw [List.get?_eq_getElem?] at h2
    simp [World.GetComponentT, h1, h2, h3]
  · intro mgr name h
    simp [ObjectManager.GetObject, h]

/-- C8 witness: the four empty-lookup cases at concrete inputs — absent
component key, absent canonical type key, stored component of concrete
type `A` looked up as type `t`, and absent object name. -/
theorem c8_witness :
    (assocFind exWorldMismatch.obj.m_umNameToComp "zz" = none ∧
      exWorldMismatch.GetComponent "zz" = none) ∧
    (assocFind exWorldMismatch.obj.m_umNameToComp "B" = none ∧
      World.GetComponentT castEq exWorldMismatch "B" = none) ∧
    (assocFind exWorldMismatch.obj.m_umNameToComp "t" = some 0 ∧
      exWorldMismatch.heap.get? 0 = some { ctype := "A" } ∧
      castEq "A" "t" = false ∧
      World.GetComponentT castEq exWorldMismatch "t" = none) ∧
    (assocFind ({} : ObjectManager).m_umNameToObjPtr "x" = none ∧
      ObjectManager.GetObject {} "x" = none) :=
  ⟨⟨by decide, c8_absent_lookups_empty.1 exWorldMismatch "zz" (by decide)⟩,
    ⟨by decide, c8_absent_lookups_empty.2.1 castEq exWorldMismatch "B" (by decide)⟩,
    ⟨by decide, by decide, by decide,
      c8_absent_lookups_empty.2.2.1 castEq exWorldMismatch "t" 0 { ctype := "A" }
        (by decide) (by decide) (by decide)⟩,
    ⟨by decide, c8_absent_lookups_empty.2.2.2 {} "x" (by decide)⟩⟩

/-- C9: the reclamation pass leaves exactly the active entities, as
unchanged values, in their original relative order: the live list after
`Update` equals the filter of the previous list on the active flag. -/
theorem c9_update_keeps_exactly_active (mgr : ObjectManager) :
    (mgr.Update).m_lObjects = mgr.m_lObjects.filter (fun o => o.m_isActive) :=
  removeLoop_objects mgr.heap mgr.m_umNameToObjPtr mgr.m_lObjects

/-- C5 counterexample: a component attached after the owning entity's
first update cycle never receives `OnStart` — here its `OnStart` count is
still 0 although a later cycle ran and `OnPreUpdate`/`OnUpdate` did reach
it — refuting "OnStart exactly once, on the first cycle after attachment,
before the first OnUpdate". -/
theorem c5_counterexample_late_attach_misses_start :
    hookCount Comp.nStart exWorldLate.heap 0 = 0 ∧
    hookCount Comp.nUpd exWorldLate.heap 0 = 1 ∧
    hookCount Comp.nPre exWorldLate.heap 0 = 1 := by decide

/-- C5 amended: `OnStart` dispatch is latched per entity, not per
component: once the latch is set, `PreUpdate` dispatches no `OnStart` at
all (and `Update`/`PostUpdate` never do), so components attached later
never receive it; during the entity's first active `PreUpdate` every
then-attached component (stored under a single key) receives `OnStart`
exactly once, before any `OnUpdate` (a `PreUpdate` never touches
`OnUpdate` counters), and the latch becomes set. -/
theorem c5_start_latched_per_entity :
    (∀ w : World, w.obj.m_isCalledUpdate = true →
        (w.PreUpdate).heap.map Comp.nStart = w.heap.map Comp.nStart) ∧
    (∀ w : World,
        (w.Update).heap.map Comp.nStart = w.heap.map Comp.nStart ∧
        (w.PostUpdate).heap.map Comp.nStart = w.heap.map Comp.nStart ∧
        (w.PreUpdate).heap.map Comp.nUpd = w.heap.map Comp.nUpd) ∧
    (∀ (w : World) (k : String) (c : Nat),
        w.obj.m_isActive = true → w.obj.m_isCalledUpdate = false →
        (w.obj.m_umNameToComp.map Prod.snd).Nodup →
        (k, c) ∈ w.obj.m_umNameToComp → c < w.heap.length →
        hookCount Comp.nStart (w.PreUpdate).heap c = hookCount Comp.nStart w.heap c + 1 ∧
        (w.PreUpdate).obj.m_isCalledUpdate = true) := by
  refine ⟨?_, ?_, ?_⟩
  · intro w h
    by_cases ha : w.obj.m_isActive = false
    · simp [World.PreUpdate, ha]
    · simp [World.PreUpdate, ha, h]
      exact dispatch_map Comp.nStart incPre (fun _ => rfl) w.heap w.obj.m_umNameToComp
  · intro w
    refine ⟨?_, ?_, ?_⟩
    · by_cases ha : w.obj.m_isActive = false
      · simp [World.Update, ha]
      · simp [World.Update, ha]
        exact dispatch_map Comp.nStart incUpd (fun _ => rfl) w.heap w.obj.m_umNameToComp
    · by_cases ha : w.obj.m_isActive = false
      · simp [World.PostUpdate, ha]
      · simp [World.PostUpdate, ha]
        exact dispatch_map Comp.nStart incPost (fun _ => rfl) w.heap w.obj.m_umNameToComp
    · by_cases ha : w.obj.m_isActive = false
      · simp [World.PreUpdate, ha]
      · by_cases hl : w.obj.m_isCalledUpdate = false
        · simp [World.PreUpdate, ha, hl]
          rw [dispatch_map Comp.nUpd incPre (fun _ => rfl),
            dispatch_map Comp.nUpd incStart (fun _ => rfl)]
        · simp [World.PreUpdate, ha, hl]
          rw [dispatch_map Comp.nUpd incPre (fun _ => rfl)]
  · intro w k c ha hl hnd hmem hlt
    constructor
    · have h1 : (w.PreUpdate).heap =
          dispatch incPre (dispatch incStart w.heap w.obj.m_umNameToComp)
            w.obj.m_umNameToComp := by
        simp [World.PreUpdate, ha, hl]
      rw [h1,
        hookCount_congr Comp.nStart (dispatch_map Comp.nStart incPre (fun _ => rfl) _ _) c,
        hookCount_dispatch Comp.nStart incStart (fun _ => rfl) w.heap _ c hlt]
      have hmem2 : c ∈ w.obj.m_umNameToComp.map Prod.snd :=
        List.mem_map_of_mem Prod.snd hmem
      have hle := List.nodup_iff_count_le_one.mp hnd c
      have hge := List.count_pos_iff.mpr hmem2
      omega
    · simp [World.PreUpdate, ha, hl]

/-- C5 witness: the positive part of the amended claim at a concrete
fresh, active entity with one attached component. -/
theorem c5_witness :
    exWorldFresh.obj.m_isActive = true ∧ exWorldFresh.obj.m_isCalledUpdate = false ∧
    (exWorldFresh.obj.m_umNameToComp.map Prod.snd).Nodup ∧
    ("k", 0) ∈ exWorldFresh.obj.m_umNameToComp ∧ 0 < exWorldFresh.heap.length ∧
    (hookCount Comp.nStart (exWorldFresh.PreUpdate).heap 0 =
        hookCount Comp.nStart exWorldFresh.heap 0 + 1 ∧
      (exWorldFresh.PreUpdate).obj.m_isCalledUpdate = true) :=
  ⟨rfl, rfl, by decide, by decide, by decide,
    c5_start_latched_per_entity.2.2 exWorldFresh "k" 0 rfl rfl (by decide) (by decide)
      (by decide)⟩

theorem RemoveComponent_keeps_obj_latch (w : World) (k : String) :
    (w.RemoveComponent k).obj.m_isCalledUpdate = w.obj.m_isCalledUpdate := by
  unfold World.RemoveComponent
  cases assocFind w.obj.m_umNameToComp k <;> rfl

theorem RemoveComponent_startMap (w : World) (k : String) :
    (w.RemoveComponent k).heap.map Comp.nStart = w.heap.map Comp.nStart := by
  unfold World.RemoveComponent
  cases assocFind w.obj.m_umNameToComp k with
  | none => rfl
  | some cid => exact modifyAt_map Comp.nStart incRelease (fun _ => rfl) w.heap cid

theorem PreUpdate_latched (w : World) (h : w.obj.m_isCalledUpdate = true) :
    (w.PreUpdate).obj.m_isCalledUpdate = true ∧
    (w.PreUpdate).heap.map Comp.nStart = w.heap.map Comp.nStart := by
  by_cases ha : w.obj.m_isActive = false
  · simp [World.PreUpdate, ha, h]
  · constructor
    · simp [World.PreUpdate, ha, h]
    · simp [World.PreUpdate, ha, h]
      exact dispatch_map Comp.nStart incPre (fun _ => rfl) w.heap w.obj.m_umNameToComp

/-- Any single public entity operation keeps the has-started latch set and
dispatches no further `OnStart`: the total start count on the heap is
unchanged (a typed attach only appends a fresh zero counter). -/
theorem applyOp_latched (w : World) (op : EntityOp) (h : w.obj.m_isCalledUpdate = true) :
    (applyOp w op).obj.m_isCalledUpdate = true ∧
    startSum (applyOp w op).heap = startSum w.heap := by
  cases op with
  | setActive b => exact ⟨h, rfl⟩
  | addComponent c k =>
      refine ⟨h, ?_⟩
      simp [applyOp, World.AddComponent, startSum,
        modifyAt_map Comp.nStart (setOwner w.obj.id) (fun _ => rfl)]
  | addComponentT ty =>
      refine ⟨h, ?_⟩
      simp [applyOp, World.AddComponentT, startSum]
  | removeComponent k =>
      refine ⟨?_, ?_⟩
      · rw [show applyOp w (EntityOp.removeComponent k) = w.RemoveComponent k from rfl,
          RemoveComponent_keeps_obj_latch]
        exact h
      · rw [show applyOp w (EntityOp.removeComponent k) = w.RemoveComponent k from rfl]
        unfold startSum
        rw [RemoveComponent_startMap]
  | removeComponentT ty =>
      refine ⟨?_, ?_⟩
      · rw [show applyOp w (EntityOp.removeComponentT ty) = w.RemoveComponent ty from rfl,
          RemoveComponent_keeps_obj_latch]
        exact h
      · rw [show applyOp w (EntityOp.removeComponentT ty) = w.RemoveComponent ty from rfl]
        unfold startSum
        rw [RemoveComponent_startMap]
  | preUpdate =>
      obtain ⟨h1, h2⟩ := PreUpdate_latched w h
      refine ⟨h1, ?_⟩
      unfold startSum
      rw [show (applyOp w EntityOp.preUpdate).heap = (w.PreUpdate).heap from rfl, h2]
  | update =>
      refine ⟨?_, ?_⟩
      · by_cases ha : w.obj.m_isActive = false
        · simp [applyOp, World.Update, ha, h]
        · simp [applyOp, World.Update, ha, h]
      · by_cases ha : w.obj.m_isActive = false
        · simp [applyOp, World.Update, ha]
        · simp [applyOp, World.Update, ha, startSum,
            dispatch_map Comp.nStart incUpd (fun _ => rfl)]
  | postUpdate =>
      refine ⟨?_, ?_⟩
      · by_cases ha : w.obj.m_isActive = false
        · simp [applyOp, World.PostUpdate, ha, h]
        · simp [applyOp, World.PostUpdate, ha, h]
      · by_cases ha : w.obj.m_isActive = false
        · simp [applyOp, World.PostUpdate, ha]
        · simp [applyOp, World.PostUpdate, ha, startSum,
            dispatch_map Comp.nStart incPost (fun _ => rfl)]

/-- C10: the has-started latch is never reset and `OnStart` is never
dispatched again: from any world whose latch is set, after any sequence
of public entity operations the latch is still set and the total
`OnStart` count on the heap is unchanged. -/
theorem c10_latch_never_resets (w : World) (ops : List EntityOp)
    (h : w.obj.m_isCalledUpdate = true) :
    (applyOps w ops).obj.m_isCalledUpdate = true ∧
    startSum (applyOps w ops).heap = startSum w.heap := by
  induction ops generalizing w with
  | nil => exact ⟨h, rfl⟩
  | cons op rest ih =>
      obtain ⟨h1, h2⟩ := applyOp_latched w op h
      obtain ⟨h3, h4⟩ := ih (applyOp w op) h1
      have hsplit : applyOps w (op :: rest) = applyOps (applyOp w op) rest := rfl
      rw [hsplit]
      exact ⟨h3, h4.trans h2⟩

/-- C10 witness: a latched entity driven through toggles, attach and all
phases keeps the latch and gains no `OnStart`. -/
theorem c10_witness :
    exWorldLatched.obj.m_isCalledUpdate = true ∧
    ((applyOps exWorldLatched
        [EntityOp.setActive false, EntityOp.setActive true, EntityOp.preUpdate,
          EntityOp.addComponentT "T", EntityOp.preUpdate, EntityOp.update,
          EntityOp.postUpdate]).obj.m_isCalledUpdate = true ∧
      startSum (applyOps exWorldLatched
        [EntityOp.setActive false, EntityOp.setActive true, EntityOp.preUpdate,
          EntityOp.addComponentT "T", EntityOp.preUpdate, EntityOp.update,
          EntityOp.postUpdate]).heap = startSum exWorldLatched.heap) :=
  ⟨rfl, c10_latch_never_resets exWorldLatched
    [EntityOp.setActive false, EntityOp.setActive true, EntityOp.preUpdate,
      EntityOp.addComponentT "T", EntityOp.preUpdate, EntityOp.update,
      EntityOp.postUpdate] rfl⟩

/-- C6: the typed and named component APIs operate on the one string-keyed
table `m_umNameToComp`: an instance whose concrete type casts to `Ty`,
attached by the named path under the `typeid` string of `Ty`, is
retrievable by the typed lookup and removable by the typed removal
(`OnRelease` fires once and the entry disappears); and a typed attach at
an occupied key — occupied through either path — overwrites it, the fresh
instance becoming the one retrieved. -/
theorem c6_shared_keyspace (castOk : String → String → Bool) (w : World) (c : Nat)
    (comp : Comp) (ty : String)
    (hkeys : (w.obj.m_umNameToComp.map Prod.fst).Nodup)
    (hget : w.heap.get? c = some comp)
    (htype : castOk comp.ctype ty = true)
    (hrefl : castOk ty ty = true) :
    World.GetComponentT castOk (w.AddComponent c ty) ty = some c ∧
    hookCount Comp.nRelease ((w.AddComponent c ty).RemoveComponentT ty).heap c =
      hookCount Comp.nRelease w.heap c + 1 ∧
    World.GetComponent ((w.AddComponent c ty).RemoveComponentT ty) ty = none ∧
    World.GetComponentT castOk ((w.AddComponent c ty).AddComponentT ty) ty =
      some w.heap.length ∧
    World.GetComponentT castOk ((w.AddComponentT ty).AddComponentT ty) ty =
      some (w.heap.length + 1) := by
  have hlt : c < w.heap.length := by
    by_contra hn
    push_neg at hn
    rw [List.get?_eq_none.mpr hn] at hget
    exact Option.noConfusion hget
  have h1 : assocFind (w.AddComponent c ty).obj.m_umNameToComp ty = some c :=
    assocFind_set_self w.obj.m_umNameToComp ty c
  have h2 : (w.AddComponent c ty).heap.get? c = some (setOwner w.obj.id comp) := by
    show (modifyAt w.heap c (setOwner w.obj.id)).get? c = _
    rw [modifyAt_get, hget]
    rfl
  have hlen : (w.AddComponent c ty).heap.length = w.heap.length :=
    modifyAt_length w.heap c (setOwner w.obj.id)
  have hR : (w.AddComponent c ty).RemoveComponentT ty =
      { heap := modifyAt (w.AddComponent c ty).heap c incRelease,
        obj := { (w.AddComponent c ty).obj with
                  m_umNameToComp :=
                    assocErase (w.AddComponent c ty).obj.m_umNameToComp ty } } := by
    unfold World.RemoveComponentT World.RemoveComponent
    rw [h1]
  refine ⟨?_, ?_, ?_, ?_, ?_⟩
  · rw [List.get?_eq_getElem?] at h2
    simp [World.GetComponentT, h1, h2, setOwner, htype]
  · rw [hR]
    show hookCount Comp.nRelease (modifyAt (w.AddComponent c ty).heap c incRelease) c = _
    rw [hookCount_modifyAt Comp.nRelease incRelease (fun _ => rfl) _ c c (hlen ▸ hlt)]
    have hcongr : hookCount Comp.nRelease (w.AddComponent c ty).heap c =
        hookCount Comp.nRelease w.heap c :=
      hookCount_congr Comp.nRelease
        (modifyAt_map Comp.nRelease (setOwner w.obj.id) (fun _ => rfl) w.heap c) c
    rw [hcongr]
    simp
  · rw [hR]
    show assocFind (assocErase (w.AddComponent c ty).obj.m_umNameToComp ty) ty = none
    exact assocFind_erase_self _ ty (assocSet_keys_nodup w.obj.m_umNameToComp ty c hkeys)
  · have h4map :
        assocFind ((w.AddComponent c ty).AddComponentT ty).obj.m_umNameToComp ty =
          some (w.AddComponent c ty).heap.length :=
      assocFind_set_self _ ty _
    have h4get :
        ((w.AddComponent c ty).AddComponentT ty).heap[(w.AddComponent c ty).heap.length]? =
          some ({ ctype := ty, owner := some (w.AddComponent c ty).obj.id } : Comp) :=
      List.getElem?_concat_length _ _
    rw [hlen] at h4map h4get
    simp [World.GetComponentT, h4map, h4get, hrefl]
  · have h5map :
        assocFind ((w.AddComponentT ty).AddComponentT ty).obj.m_umNameToComp ty =
          some (w.AddComponentT ty).heap.length :=
      assocFind_set_self _ ty _
    have h5get :
        ((w.AddComponentT ty).AddComponentT ty).heap[(w.AddComponentT ty).heap.length]? =
          some ({ ctype := ty, owner := some (w.AddComponentT ty).obj.id } : Comp) :=
      List.getElem?_concat_length _ _
    have h5len : (w.AddComponentT ty).heap.length = w.heap.length + 1 := by
      show (w.heap ++ [({ ctype := ty, owner := some w.obj.id } : Comp)]).length = _
      simp
    rw [h5len] at h5map h5get
    simp [World.GetComponentT, h5map, h5get, hrefl]

/-- C6 witness: concrete instance of type `T` attached under key `T`,
with the equality cast. -/
theorem c6_witness :
    (exWorldT.obj.m_umNameToComp.map Prod.fst).Nodup ∧
    exWorldT.heap.get? 0 = some { ctype := "T" } ∧
    castEq "T" "T" = true ∧
    (World.GetComponentT castEq (exWorldT.AddComponent 0 "T") "T" = some 0 ∧
      hookCount Comp.nRelease ((exWorldT.AddComponent 0 "T").RemoveComponentT "T").heap 0 =
        hookCount Comp.nRelease exWorldT.heap 0 + 1 ∧
      World.GetComponent ((exWorldT.AddComponent 0 "T").RemoveComponentT "T") "T" = none ∧
      World.GetComponentT castEq ((exWorldT.AddComponent 0 "T").AddComponentT "T") "T" =
        some exWorldT.heap.length ∧
      World.GetComponentT castEq ((exWorldT.AddComponentT "T").AddComponentT "T") "T" =
        some (exWorldT.heap.length + 1)) :=
  ⟨by decide, by decide, by decide,
    c6_shared_keyspace castEq exWorldT 0 { ctype := "T" } "T" (by decide) (by decide)
      (by decide) (by decide)⟩

theorem update_of_all_active (m : ObjectManager)
    (ha : ∀ ob ∈ m.m_lObjects, ob.m_isActive = true) : m.Update = m := by
  have hrl := removeLoop_all_active m.heap m.m_umNameToObjPtr m.m_lObjects ha
  show m.RemoveUnActuveObjects = m
  unfold ObjectManager.RemoveUnActuveObjects
  rw [hrl]

/-- C4 counterexample: a component stored under two keys of the same
entity receives `OnRelease` twice when the deactivated entity is
reclaimed — the destructor fires the hook once per map entry, not once
per component — refuting "exactly once on every component attached to
that entity". -/
theorem c4_counterexample_double_release :
    ((exMgrTwoKeys.SetObjectActive 0 false).Update).heap.map Comp.nRelease = [2] := by
  decide

/-- C4 amended: in a registry with well-formed indices (distinct name
keys, in-range component references) where no component instance is
referenced by two component-map entries, deactivating a registered entity
and running the reclamation pass makes `GetObject` of its name empty,
invokes `OnRelease` exactly once on each of its components (one per map
entry in general), and a second reclamation pass changes nothing at all. -/
theorem c4_deactivate_then_update_releases_once (mgr : ObjectManager) (o : GameObject)
    (name : String)
    (hmem : o ∈ mgr.m_lObjects)
    (hname : o.m_name = name)
    (_hreg : assocFind mgr.m_umNameToObjPtr name = some o.id)
    (hkeys : (mgr.m_umNameToObjPtr.map Prod.fst).Nodup)
    (hrange : ∀ p ∈ o.m_umNameToComp, p.2 < mgr.heap.length)
    (hdisj : ((mgr.m_lObjects.map fun ob => ob.m_umNameToComp.map Prod.snd).flatten).Nodup) :
    ((mgr.SetObjectActive o.id false).Update).GetObject name = none ∧
    (∀ p ∈ o.m_umNameToComp,
        hookCount Comp.nRelease ((mgr.SetObjectActive o.id false).Update).heap p.2 =
          hookCount Comp.nRelease mgr.heap p.2 + 1) ∧
    ((mgr.SetObjectActive o.id false).Update).Update =
      (mgr.SetObjectActive o.id false).Update := by
  have hdead : ({ o with m_isActive := false } : GameObject) ∈
      (mgr.SetObjectActive o.id false).m_lObjects := by
    refine List.mem_map.mpr ⟨o, hmem, ?_⟩
    simp
  have hdeadf : ({ o with m_isActive := false } : GameObject) ∈
      ((mgr.SetObjectActive o.id false).m_lObjects).filter (fun ob => !ob.m_isActive) :=
    List.mem_filter.mpr ⟨hdead, rfl⟩
  refine ⟨?_, ?_, ?_⟩
  · show assocFind ((mgr.SetObjectActive o.id false).Update).m_umNameToObjPtr name = none
    have hm : ((mgr.SetObjectActive o.id false).Update).m_umNameToObjPtr =
        ((((mgr.SetObjectActive o.id false).m_lObjects).filter
            (fun ob => !ob.m_isActive)).map GameObject.m_name).foldl assocErase
          mgr.m_umNameToObjPtr :=
      removeLoop_nameMap _ _ _
    rw [hm]
    refine assocFind_foldl_erase_mem _ _ _ hkeys ?_
    refine List.mem_map.mpr ⟨{ o with m_isActive := false }, hdeadf, ?_⟩
    simpa using hname
  · intro p hp
    have hj : p.2 < mgr.heap.length := hrange p hp
    have hh : ((mgr.SetObjectActive o.id false).Update).heap =
        (((mgr.SetObjectActive o.id false).m_lObjects).filter
          (fun ob => !ob.m_isActive)).foldl destructObj mgr.heap :=
      removeLoop_heap _ _ _
    rw [hh, hookCount_foldl_destruct _ _ _ hj]
    have hsub2 : List.Sublist
        ((((mgr.SetObjectActive o.id false).m_lObjects).filter
            (fun ob => !ob.m_isActive)).map fun ob => ob.m_umNameToComp.map Prod.snd)
        (((mgr.SetObjectActive o.id false).m_lObjects).map
          fun ob => ob.m_umNameToComp.map Prod.snd) :=
      (List.filter_sublist _).map _
    have hmapeq : (((mgr.SetObjectActive o.id false).m_lObjects).map
          fun ob => ob.m_umNameToComp.map Prod.snd) =
        (mgr.m_lObjects.map fun ob => ob.m_umNameToComp.map Prod.snd) := by
      show ((mgr.m_lObjects.map fun ob =>
          if ob.id = o.id then { ob with m_isActive := false } else ob).map
            fun ob => ob.m_umNameToComp.map Prod.snd) = _
      rw [List.map_map]
      refine List.map_congr_left ?_
      intro a _
      by_cases hid : a.id = o.id <;> simp [hid]
    have hsub3 := flatten_sublist hsub2
    rw [hmapeq] at hsub3
    have hle := hsub3.count_le p.2
    have hle1 := List.nodup_iff_count_le_one.mp hdisj p.2
    have hJ : p.2 ∈ (((((mgr.SetObjectActive o.id false).m_lObjects).filter
        (fun ob => !ob.m_isActive)).map fun ob => ob.m_umNameToComp.map Prod.snd).flatten) := by
      refine List.mem_flatten.mpr ⟨({ o with m_isActive := false } : GameObject).m_umNameToComp.map
        Prod.snd, List.mem_map_of_mem _ hdeadf, ?_⟩
      exact List.mem_map_of_mem Prod.snd hp
    have hge := List.count_pos_iff.mpr hJ
    omega
  · refine update_of_all_active _ ?_
    intro ob hob
    have h2 : ((mgr.SetObjectActive o.id false).Update).m_lObjects =
        ((mgr.SetObjectActive o.id false).m_lObjects).filter (fun x => x.m_isActive) :=
      removeLoop_objects _ _ _
    rw [h2] at hob
    exact (List.mem_filter.mp hob).2

/-- C4 witness: a concrete registry with one registered entity holding one
component under one key. -/
theorem c4_witness :
    exObjOneKey ∈ exMgrOneKey.m_lObjects ∧
    exObjOneKey.m_name = "n" ∧
    assocFind exMgrOneKey.m_umNameToObjPtr "n" = some exObjOneKey.id ∧
    (exMgrOneKey.m_umNameToObjPtr.map Prod.fst).Nodup ∧
    (∀ p ∈ exObjOneKey.m_umNameToComp, p.2 < exMgrOneKey.heap.length) ∧
    ((exMgrOneKey.m_lObjects.map fun ob => ob.m_umNameToComp.map Prod.snd).flatten).Nodup ∧
    (((exMgrOneKey.SetObjectActive exObjOneKey.id false).Update).GetObject "n" = none ∧
      (∀ p ∈ exObjOneKey.m_umNameToComp,
          hookCount Comp.nRelease
              ((exMgrOneKey.SetObjectActive exObjOneKey.id false).Update).heap p.2 =
            hookCount Comp.nRelease exMgrOneKey.heap p.2 + 1) ∧
      ((exMgrOneKey.SetObjectActive exObjOneKey.id false).Update).Update =
        (exMgrOneKey.SetObjectActive exObjOneKey.id false).Update) :=
  ⟨by decide, rfl, by decide, by decide, by decide, by decide,
    c4_deactivate_then_update_releases_once exMgrOneKey exObjOneKey "n" (by decide) rfl
      (by decide) (by decide) (by decide) (by decide)⟩

end ComponentTest
